import Mathlib

/-!
A shallow embedding of tokeniser.py: a rule-based tokeniser holding an
optional trained vocabulary, three vocabulary-aware tokenisation operations,
and a corpus statistics function.

Modelling conventions: a Python string is a list of unicode characters,
a Python int is a Nat or an Int, a Python float is an exact rational,
an insertion-ordered dict is an association list with distinct keys, and a
raised exception is an explicit error value.  Since a Python method mutates
its object in place even when a later line raises, train returns the
post-call state together with an optional error.
-/

/-- Code points of the fixed punctuation class of the regular expression that
every splitting call site shares.  In order: exclamation mark, hash, percent,
ampersand, apostrophe, both parentheses, asterisk, comma, hyphen, full stop,
slash, colon, semicolon, question mark, at sign, both square brackets (the
closing one appears escaped by a backslash in the class, so the backslash
itself is not a member), underscore, both curly braces, inverted exclamation
mark, section sign, left guillemet, pilcrow, middle dot, right guillemet,
inverted question mark, the four curly quotes, en dash, em dash, and the
straight double quote. -/
def punctCodes : List Nat :=
  [33, 35, 37, 38, 39, 40, 41, 42, 44, 45, 46, 47, 58, 59, 63, 64,
   91, 93, 95, 123, 125, 161, 167, 171, 182, 183, 187, 191,
   8216, 8217, 8220, 8221, 8211, 8212, 34]

/-- Code points treated as whitespace, both by the regular expression class
and by the argument-free string split. -/
def spaceCodes : List Nat :=
  [9, 10, 11, 12, 13, 28, 29, 30, 31, 32, 133, 160, 5760,
   8192, 8193, 8194, 8195, 8196, 8197, 8198, 8199, 8200, 8201, 8202,
   8232, 8233, 8239, 8287, 12288]

def isPunct (c : Char) : Bool := punctCodes.contains c.toNat

def isPySpace (c : Char) : Bool := spaceCodes.contains c.toNat

/-- A character the splitting regular expression replaces by a space: a
punctuation character or a whitespace character. -/
def isSep (c : Char) : Bool := isPunct c || isPySpace c

def spaceChar : Char := Char.ofNat 32

/-- The regular-expression substitution shared by all splitting call sites:
every punctuation or whitespace character becomes a space, every other
character is kept. -/
def pySub (text : List Char) : List Char :=
  text.map (fun c => if isSep c then spaceChar else c)

/-- Helper of pySplit: scans the text, accumulating the current token in
reverse order. -/
def pySplitAux : List Char → List Char → List (List Char)
  | [], acc => if acc = [] then [] else [acc.reverse]
  | c :: cs, acc =>
    if isPySpace c then
      if acc = [] then pySplitAux cs [] else acc.reverse :: pySplitAux cs []
    else
      pySplitAux cs (c :: acc)

/-- The argument-free string split: maximal runs of non-whitespace
characters, in input order, empty runs discarded. -/
def pySplit (text : List Char) : List (List Char) :=
  pySplitAux text []

/-- Tokeniser.tokenise_on_punctuation: substitute separators by spaces, then
split on whitespace. -/
def tokenise_on_punctuation (text : List Char) : List (List Char) :=
  pySplit (pySub text)

/-- The distinct elements of a list in order of first occurrence: the key
order of an insertion-ordered counting dict built by scanning the list. -/
def firstOccs {α : Type} [DecidableEq α] : List α → List α
  | [] => []
  | a :: l => a :: (firstOccs l).filter (fun b => b ≠ a)

/-- dict(Counter(l)): each distinct element of l paired with its number of
occurrences in l, keys in first-occurrence order. -/
def counterOf {α : Type} [DecidableEq α] (l : List α) : List (α × Nat) :=
  (firstOccs l).map (fun a => (a, l.count a))

/-- The exceptions the tokeniser can raise: the division-by-zero of training
an empty corpus, the runtime error of an untrained tokeniser, and the value
error of an out-of-range frequency threshold. -/
inductive PyError : Type where
  | zeroDivision : PyError
  | runtime : PyError
  | value : PyError
deriving DecidableEq, Repr

/-- The mutable state of a Tokeniser instance: the five private fields set by
the constructor and overwritten by train. -/
structure Tokeniser : Type where
  check_train : Bool
  vocabulary : List (List Char)
  vocab_counts : List (List Char × Nat)
  vocab_sum_reciprocal : ℚ
  vocab_freq : List ℚ
deriving DecidableEq, Repr

/-- Tokeniser.__init__: the fresh state. -/
def Tokeniser.init : Tokeniser :=
  { check_train := false
    vocabulary := []
    vocab_counts := []
    vocab_sum_reciprocal := 0
    vocab_freq := [] }

/-- Tokeniser.train.  Returns the post-call state and an optional error.
The source sets check_train, vocabulary and vocab_counts before dividing by
the count total, so when the corpus yields zero tokens the division raises
while those three fields are already overwritten and vocab_sum_reciprocal
and vocab_freq keep their prior values. -/
def Tokeniser.train (self : Tokeniser) (text : List Char) :
    Tokeniser × Option PyError :=
  let words := pySplit (pySub text)
  let vocab_counts := counterOf words
  let total := (vocab_counts.map Prod.snd).sum
  if total = 0 then
    ({ self with
        check_train := true
        vocabulary := words
        vocab_counts := vocab_counts }, some PyError.zeroDivision)
  else
    ({ check_train := true
       vocabulary := words
       vocab_counts := vocab_counts
       vocab_sum_reciprocal := 1 / (total : ℚ)
       vocab_freq :=
         (vocab_counts.map Prod.snd).map
           (fun (x : Nat) => (x : ℚ) * (1 / (total : ℚ))) },
     none)

/-- The placeholder token emitted for a non-member token when use_unk is
true. -/
def unkToken : List Char := [Char.ofNat 85, Char.ofNat 78, Char.ofNat 75]

/-- The shared output loop of the three vocabulary-aware operations: a member
of the key list is appended unchanged, a non-member becomes the placeholder
when use_unk is true and its individual characters otherwise.  The redundant
non-membership test of the middle branch mirrors the source. -/
def emitTokens (keys : List (List Char)) (use_unk : Bool) :
    List (List Char) → List (List Char)
  | [] => []
  | token :: rest =>
    if token ∈ keys then
      token :: emitTokens keys use_unk rest
    else if token ∉ keys ∧ use_unk = true then
      unkToken :: emitTokens keys use_unk rest
    else
      (token.map (fun c => [c])) ++ emitTokens keys use_unk rest

/-- Tokeniser.tokenise: membership is tested against the raw vocabulary
list. -/
def Tokeniser.tokenise (self : Tokeniser) (text : List Char)
    (use_unk : Bool) : Except PyError (List (List Char)) :=
  if self.check_train = true then
    let words := pySplit (pySub text)
    Except.ok (emitTokens self.vocabulary use_unk words)
  else
    Except.error PyError.runtime

/-- The keys of threshold_vocab: the counted vocabulary entries whose count
is at least the threshold, in key order. -/
def Tokeniser.countThresholdVocab (self : Tokeniser) (threshold : ℤ) :
    List (List Char) :=
  (self.vocab_counts.filter (fun p => threshold ≤ (p.2 : ℤ))).map Prod.fst

/-- Tokeniser.tokenise_with_count_threshold. -/
def Tokeniser.tokenise_with_count_threshold (self : Tokeniser)
    (text : List Char) (threshold : ℤ) (use_unk : Bool) :
    Except PyError (List (List Char)) :=
  if self.check_train = true then
    let words := pySplit (pySub text)
    Except.ok (emitTokens (self.countThresholdVocab threshold) use_unk words)
  else
    Except.error PyError.runtime

/-- The keys of freq_vocab: count_freq is dict(zip(keys of vocab_counts,
vocab_freq)) — the zip truncates at the shorter list and the keys of
vocab_counts are distinct in every reachable state — filtered to the entries
whose relative frequency is at least the threshold. -/
def Tokeniser.freqThresholdVocab (self : Tokeniser) (threshold : ℚ) :
    List (List Char) :=
  (((self.vocab_counts.map Prod.fst).zip self.vocab_freq).filter
      (fun p => threshold ≤ p.2)).map Prod.fst

/-- Tokeniser.tokenise_with_freq_threshold: the threshold bound is checked
before the trained check. -/
def Tokeniser.tokenise_with_freq_threshold (self : Tokeniser)
    (text : List Char) (threshold : ℚ) (use_unk : Bool) :
    Except PyError (List (List Char)) :=
  if ¬ (0 ≤ threshold ∧ threshold ≤ 1) then
    Except.error PyError.value
  else if self.check_train = true then
    let words := pySplit (pySub text)
    Except.ok (emitTokens (self.freqThresholdVocab threshold) use_unk words)
  else
    Except.error PyError.runtime

/-- Insert a key-value pair into a list sorted by key (helper of
sortByKey). -/
def insertByKey (p : Nat × Nat) : List (Nat × Nat) → List (Nat × Nat)
  | [] => [p]
  | q :: qs => if p.1 ≤ q.1 then p :: q :: qs else q :: insertByKey p qs

/-- dict(sorted(d.items())): the entries reordered by ascending key. -/
def sortByKey : List (Nat × Nat) → List (Nat × Nat)
  | [] => []
  | p :: ps => insertByKey p (sortByKey ps)

/-- statistics.mean on exact rationals: the sum divided by the length. -/
def listMeanQ (xs : List ℚ) : ℚ := xs.sum / (xs.length : ℚ)

/-- The square of statistics.stdev on exact rationals: the sample variance,
the sum of squared deviations from the mean divided by one less than the
sample size.  The square root of this quantity is irrational in general, so
the embedding carries the variance and statements compare squares. -/
def sampleVarQ (xs : List ℚ) : ℚ :=
  (xs.map (fun x => (x - listMeanQ xs) ^ 2)).sum / ((xs.length : ℚ) - 1)

/-- The record returned by get_stats.  The field token_length_std_sq models
the token_length_std entry of the source dict by its square (the sample
variance), keeping the embedding in exact arithmetic. -/
structure Stats : Type where
  type_count : Nat
  token_count : Nat
  type_token_ratio : ℚ
  token_count_by_length : List (Nat × Nat)
  average_token_length : ℚ
  token_length_std_sq : ℚ
deriving DecidableEq, Repr

/-- get_stats: the six descriptive statistics of a tokenised corpus. -/
def get_stats (tokenised_text : List (List Char)) : Stats :=
  let counts := counterOf tokenised_text
  let type_count := counts.length
  let token_count := (counts.map Prod.snd).sum
  let chars := tokenised_text.map List.length
  let char_counts := counterOf chars
  { type_count := type_count
    token_count := token_count
    type_token_ratio := (type_count : ℚ) / (token_count : ℚ)
    token_count_by_length := sortByKey char_counts
    average_token_length := listMeanQ (chars.map (fun (n : Nat) => (n : ℚ)))
    token_length_std_sq := sampleVarQ (chars.map (fun (n : Nat) => (n : ℚ))) }

/-- The space-joined rendering of a token sequence, as the join of the split
output with single spaces. -/
def joinSpace : List (List Char) → List Char
  | [] => []
  | [t] => t
  | t :: ts => t ++ spaceChar :: joinSpace ts

deriving instance DecidableEq for Except

/-- The per-token behaviour the spec describes for the three
vocabulary-aware operations: a member of the active vocabulary is emitted
unchanged, a non-member becomes the single placeholder token when use_unk is
true and its individual characters, in original order, otherwise. -/
def emitOne (keys : List (List Char)) (use_unk : Bool) (token : List Char) :
    List (List Char) :=
  if token ∈ keys then [token]
  else if use_unk = true then [unkToken]
  else token.map (fun c => [c])

/-- The training corpus of the worked examples of the spec. -/
def exCorpus : List Char := "the cat sat on the mat".toList

/-- The state after training a fresh instance on the example corpus. -/
def exTrained : Tokeniser := (Tokeniser.init.train exCorpus).1

/-- The example input holding one trained and one unseen token. -/
def exDog : List Char := "the dog".toList

/-- The token sequence of the example corpus. -/
def exCorpusToks : List (List Char) :=
  ["the".toList, "cat".toList, "sat".toList, "on".toList, "the".toList,
   "mat".toList]

/-- A state trained on a one-token corpus, used to witness what a later
failing train call does to a previously trained instance. -/
def exTrainedA : Tokeniser := (Tokeniser.init.train "a".toList).1

/-- The token sequence of the statistics example. -/
def exStatsToks : List (List Char) :=
  ["a".toList, "bb".toList, "bb".toList, "ccc".toList]

/-! ## Basic facts about training and the guards -/

/-- Any train call, failing or not, sets the trained flag and overwrites the
vocabulary and the counted vocabulary with those of the new corpus. -/
lemma train_fields (self : Tokeniser) (text : List Char) :
    (self.train text).1.check_train = true
    ∧ (self.train text).1.vocabulary = pySplit (pySub text)
    ∧ (self.train text).1.vocab_counts = counterOf (pySplit (pySub text)) := by
  simp only [Tokeniser.train]
  split <;> exact ⟨rfl, rfl, rfl⟩

/-- C4.  tokenise_with_freq_threshold rejects every threshold outside the
closed unit interval with the value error on every instance, trained or not,
while the boundary thresholds 0 and 1 never produce the value error. -/
theorem claim_C4 (self : Tokeniser) (text : List Char) (use_unk : Bool)
    (fthr : ℚ) (h : ¬ (0 ≤ fthr ∧ fthr ≤ 1)) :
    self.tokenise_with_freq_threshold text fthr use_unk
        = Except.error PyError.value
    ∧ self.tokenise_with_freq_threshold text 0 use_unk
        ≠ Except.error PyError.value
    ∧ self.tokenise_with_freq_threshold text 1 use_unk
        ≠ Except.error PyError.value := by
  refine ⟨?_, ?_, ?_⟩
  · simp [Tokeniser.tokenise_with_freq_threshold, h]
  · simp only [Tokeniser.tokenise_with_freq_threshold]
    rw [if_neg (by norm_num)]
    split <;> simp
  · simp only [Tokeniser.tokenise_with_freq_threshold]
    rw [if_neg (by norm_num)]
    split <;> simp

/-- Witness for C4 at the untrained fresh instance and threshold 3/2. -/
theorem claim_C4_witness :
    (¬ ((0:ℚ) ≤ 3/2 ∧ (3:ℚ)/2 ≤ 1))
    ∧ (Tokeniser.init.tokenise_with_freq_threshold [] (3/2) false
          = Except.error PyError.value
       ∧ Tokeniser.init.tokenise_with_freq_threshold [] 0 false
          ≠ Except.error PyError.value
       ∧ Tokeniser.init.tokenise_with_freq_threshold [] 1 false
          ≠ Except.error PyError.value) :=
  ⟨by norm_num, claim_C4 Tokeniser.init [] false (3/2) (by norm_num)⟩

/-- C5.  Raising the integer count threshold never admits a new token into
the active vocabulary of tokenise_with_count_threshold. -/
theorem claim_C5 (self : Tokeniser) (h : self.check_train = true)
    (t1 t2 : ℤ) (hle : t1 ≤ t2) (tok : List Char)
    (htok : tok ∈ self.countThresholdVocab t2) :
    tok ∈ self.countThresholdVocab t1 := by
  simp only [Tokeniser.countThresholdVocab, List.mem_map] at htok ⊢
  obtain ⟨p, hp, rfl⟩ := htok
  refine ⟨p, ?_, rfl⟩
  rw [List.mem_filter] at hp ⊢
  refine ⟨hp.1, ?_⟩
  have h2 : t2 ≤ (p.2 : ℤ) := by simpa using hp.2
  simpa using le_trans hle h2

/-- Witness for C5 on the example corpus: the token appearing twice stays in
the active vocabulary when the threshold drops from 2 to 1. -/
theorem claim_C5_witness :
    exTrained.check_train = true
    ∧ (1:ℤ) ≤ 2
    ∧ "the".toList ∈ exTrained.countThresholdVocab 2
    ∧ "the".toList ∈ exTrained.countThresholdVocab 1 :=
  ⟨by decide, by decide, by decide,
   claim_C5 exTrained (by decide) 1 2 (by decide) _ (by decide)⟩

/-- Counterexample for C2: training a previously trained instance on a
zero-token corpus raises the division-by-zero error, yet it has already set
the trained flag and overwritten the vocabulary. -/
theorem claim_C2_cex :
    (exTrainedA.train []).2 = some PyError.zeroDivision
    ∧ (exTrainedA.train []).1.check_train = true
    ∧ exTrainedA.vocabulary = ["a".toList]
    ∧ (exTrainedA.train []).1.vocabulary = [] := by
  exact ⟨by decide, by decide, by decide, by decide⟩

/-- C2 amended.  The trained flag is false on a fresh instance, but a train
call on a corpus yielding zero tokens fails only after setting the flag and
overwriting vocabulary and vocab_counts with empty values; the two frequency
fields keep their prior values. -/
theorem claim_C2_amended (self : Tokeniser) (text : List Char)
    (h : pySplit (pySub text) = []) :
    Tokeniser.init.check_train = false
    ∧ self.train text =
        ({ self with
            check_train := true
            vocabulary := []
            vocab_counts := [] }, some PyError.zeroDivision) := by
  refine ⟨rfl, ?_⟩
  simp [Tokeniser.train, h, counterOf, firstOccs]

/-- Witness for C2 on the empty corpus. -/
theorem claim_C2_witness :
    pySplit (pySub []) = []
    ∧ (Tokeniser.init.check_train = false
       ∧ Tokeniser.init.train [] =
          ({ Tokeniser.init with
              check_train := true
              vocabulary := []
              vocab_counts := [] }, some PyError.zeroDivision)) :=
  ⟨by decide, claim_C2_amended Tokeniser.init [] (by decide)⟩

/-- Counterexample for C3: an instance whose only train call failed was never
successfully trained, yet tokenise succeeds on it instead of raising the
untrained error; and on a truly fresh instance an out-of-range frequency
threshold raises the value error, not the untrained runtime error. -/
theorem claim_C3_cex :
    (exTrainedA.train []).2 = some PyError.zeroDivision
    ∧ (exTrainedA.train []).1.tokenise "b".toList false
        = Except.ok ["b".toList]
    ∧ Tokeniser.init.tokenise_with_freq_threshold [] 2 false
        = Except.error PyError.value := by
  refine ⟨by decide, by decide, ?_⟩
  simp only [Tokeniser.tokenise_with_freq_threshold]
  rw [if_pos (by norm_num)]

/-- C3 amended.  The three operations raise the untrained runtime error
exactly on instances whose trained flag is unset — a fresh instance, but not
one whose train call failed — and for the frequency variant only when the
threshold lies inside the unit interval, an out-of-range threshold raising
the value error first. -/
theorem claim_C3_amended (self : Tokeniser) (h : self.check_train = false)
    (text : List Char) (use_unk : Bool) (cthr : ℤ) (fthr : ℚ)
    (hf : 0 ≤ fthr ∧ fthr ≤ 1) :
    self.tokenise text use_unk = Except.error PyError.runtime
    ∧ self.tokenise_with_count_threshold text cthr use_unk
        = Except.error PyError.runtime
    ∧ self.tokenise_with_freq_threshold text fthr use_unk
        = Except.error PyError.runtime := by
  refine ⟨?_, ?_, ?_⟩
  · simp [Tokeniser.tokenise, h]
  · simp [Tokeniser.tokenise_with_count_threshold, h]
  · simp [Tokeniser.tokenise_with_freq_threshold, h, hf]

/-- Witness for C3 at the fresh instance. -/
theorem claim_C3_witness :
    Tokeniser.init.check_train = false
    ∧ ((0:ℚ) ≤ 0 ∧ (0:ℚ) ≤ 1)
    ∧ (Tokeniser.init.tokenise [] false = Except.error PyError.runtime
       ∧ Tokeniser.init.tokenise_with_count_threshold [] 1 false
          = Except.error PyError.runtime
       ∧ Tokeniser.init.tokenise_with_freq_threshold [] 0 false
          = Except.error PyError.runtime) :=
  ⟨rfl, by norm_num, claim_C3_amended Tokeniser.init rfl [] false 1 0 (by norm_num)⟩

/-- C6.  After training on the example corpus, tokenising the corpus itself
returns exactly its token sequence under either use_unk value, every corpus
token being a member of the trained vocabulary. -/
theorem claim_C6 :
    exTrained.tokenise exCorpus false = Except.ok exCorpusToks
    ∧ exTrained.tokenise exCorpus true = Except.ok exCorpusToks
    ∧ (pySplit (pySub exCorpus)).all
        (fun tok => decide (tok ∈ exTrained.vocabulary)) = true := by
  exact ⟨by decide, by decide, by decide⟩

/-! ## The per-token characterisation of the shared output loop -/

/-- The output loop concatenates the per-token emissions in input order. -/
lemma emitTokens_eq_flatten (keys : List (List Char)) (use_unk : Bool)
    (ws : List (List Char)) :
    emitTokens keys use_unk ws = (ws.map (emitOne keys use_unk)).flatten := by
  induction ws with
  | nil => rfl
  | cons t rest ih =>
    simp only [emitTokens, emitOne, List.map_cons, List.flatten_cons]
    by_cases h : t ∈ keys
    · simp [h, ih]
    · by_cases hu : use_unk = true
      · subst hu
        simp [h, ih]
      · have hu2 : use_unk = false := by simpa using hu
        subst hu2
        simp [h, ih]

/-- C1.  On a trained instance each of the three operations emits, from left
to right, every member split token unchanged and every non-member token as
the placeholder (use_unk true) or as its characters (use_unk false), each
against its own active vocabulary; in particular the two unknown-fallback
examples of the spec hold. -/
theorem claim_C1 (self : Tokeniser) (h : self.check_train = true)
    (text : List Char) (use_unk : Bool) (cthr : ℤ) (fthr : ℚ)
    (hf : 0 ≤ fthr ∧ fthr ≤ 1) :
    (self.tokenise text use_unk =
      Except.ok (((pySplit (pySub text)).map
        (emitOne self.vocabulary use_unk)).flatten))
    ∧ (self.tokenise_with_count_threshold text cthr use_unk =
      Except.ok (((pySplit (pySub text)).map
        (emitOne (self.countThresholdVocab cthr) use_unk)).flatten))
    ∧ (self.tokenise_with_freq_threshold text fthr use_unk =
      Except.ok (((pySplit (pySub text)).map
        (emitOne (self.freqThresholdVocab fthr) use_unk)).flatten))
    ∧ exTrained.tokenise exDog false =
        Except.ok ["the".toList, "d".toList, "o".toList, "g".toList]
    ∧ exTrained.tokenise exDog true = Except.ok ["the".toList, unkToken] := by
  refine ⟨?_, ?_, ?_, by decide, by decide⟩
  · simp [Tokeniser.tokenise, h, emitTokens_eq_flatten]
  · simp [Tokeniser.tokenise_with_count_threshold, h, emitTokens_eq_flatten]
  · simp [Tokeniser.tokenise_with_freq_threshold, h, hf, emitTokens_eq_flatten]

/-- Witness for C1 on the trained example instance, with count threshold 1
and frequency threshold 1/2. -/
theorem claim_C1_witness :
    exTrained.check_train = true
    ∧ ((0:ℚ) ≤ 1/2 ∧ (1:ℚ)/2 ≤ 1)
    ∧ ((exTrained.tokenise exDog true =
        Except.ok (((pySplit (pySub exDog)).map
          (emitOne exTrained.vocabulary true)).flatten))
      ∧ (exTrained.tokenise_with_count_threshold exDog 1 true =
        Except.ok (((pySplit (pySub exDog)).map
          (emitOne (exTrained.countThresholdVocab 1) true)).flatten))
      ∧ (exTrained.tokenise_with_freq_threshold exDog (1/2) true =
        Except.ok (((pySplit (pySub exDog)).map
          (emitOne (exTrained.freqThresholdVocab (1/2)) true)).flatten))
      ∧ exTrained.tokenise exDog false =
          Except.ok ["the".toList, "d".toList, "o".toList, "g".toList]
      ∧ exTrained.tokenise exDog true = Except.ok ["the".toList, unkToken]) :=
  ⟨by decide, by norm_num,
   claim_C1 exTrained (by decide) exDog true 1 (1/2) (by norm_num)⟩

/-! ## Facts about the counting dict -/

lemma mem_firstOccs {α : Type} [DecidableEq α] (a : α) (l : List α) :
    a ∈ firstOccs l ↔ a ∈ l := by
  induction l with
  | nil => simp [firstOccs]
  | cons b l ih =>
    simp only [firstOccs, List.mem_cons, List.mem_filter, ih,
      decide_eq_true_eq]
    by_cases hab : a = b
    · simp [hab]
    · simp [hab]

lemma nodup_firstOccs {α : Type} [DecidableEq α] (l : List α) :
    (firstOccs l).Nodup := by
  induction l with
  | nil => simp [firstOccs]
  | cons b l ih =>
    rw [firstOccs, List.nodup_cons]
    constructor
    · intro hmem
      rw [List.mem_filter] at hmem
      simp at hmem
    · exact ih.filter _

lemma filter_ne_of_not_mem {α : Type} [DecidableEq α] (a : α) (xs : List α)
    (h : a ∉ xs) : xs.filter (fun b => b ≠ a) = xs := by
  apply List.filter_eq_self.mpr
  intro b hb
  simp only [decide_eq_true_eq]
  rintro rfl
  exact h hb

/-- Splitting the sum of a function over a duplicate-free list at one of its
members. -/
lemma sum_map_filter_ne {α : Type} [DecidableEq α] (f : α → Nat) (a : α)
    (xs : List α) (hnd : xs.Nodup) (hmem : a ∈ xs) :
    (xs.map f).sum = f a + ((xs.filter (fun b => b ≠ a)).map f).sum := by
  induction xs with
  | nil => cases hmem
  | cons x xs ih =>
    rcases List.mem_cons.mp hmem with rfl | hmem2
    · have hnotin : a ∉ xs := (List.nodup_cons.mp hnd).1
      rw [List.filter_cons, if_neg (by simp), filter_ne_of_not_mem a xs hnotin]
      simp
    · have hx : x ≠ a := by
        rintro rfl
        exact (List.nodup_cons.mp hnd).1 hmem2
      have hxd : (decide (x ≠ a)) = true := by simpa using hx
      have ihh := ih (List.nodup_cons.mp hnd).2 hmem2
      simp only [List.filter_cons, hxd, if_true, List.map_cons,
        List.sum_cons] at ihh ⊢
      omega

/-- The occurrence counts of the distinct elements add up to the length of
the counted list. -/
lemma sum_firstOccs_counts {α : Type} [DecidableEq α] (l : List α) :
    ((firstOccs l).map (fun t => l.count t)).sum = l.length := by
  induction l with
  | nil => simp [firstOccs]
  | cons a l ih =>
    rw [firstOccs, List.map_cons, List.sum_cons, List.count_cons_self]
    have hfilt : ((firstOccs l).filter (fun b => b ≠ a)).map
          (fun t => (a :: l).count t)
        = ((firstOccs l).filter (fun b => b ≠ a)).map (fun t => l.count t) := by
      apply List.map_congr_left
      intro t ht
      rw [List.mem_filter] at ht
      have ht2 : t ≠ a := by simpa using ht.2
      exact List.count_cons_of_ne ht2 l
    rw [hfilt]
    by_cases ha : a ∈ l
    · have h2 := sum_map_filter_ne (fun t => l.count t) a (firstOccs l)
        (nodup_firstOccs l) ((mem_firstOccs a l).mpr ha)
      simp only [] at h2
      simp only [List.length_cons]
      omega
    · have h0 : l.count a = 0 := List.count_eq_zero.mpr ha
      have hnm : a ∉ firstOccs l := fun hc => ha ((mem_firstOccs a l).mp hc)
      rw [filter_ne_of_not_mem a _ hnm, h0]
      simp only [List.length_cons]
      omega

/-- The counts of the counting dict add up to the length of the counted
list: each occurrence is counted exactly once. -/
lemma sum_counterOf_counts {α : Type} [DecidableEq α] (l : List α) :
    ((counterOf l).map Prod.snd).sum = l.length := by
  rw [counterOf, List.map_map]
  exact sum_firstOccs_counts l

/-- Multiplying a list of counts by a constant rational multiplies its
sum. -/
lemma sum_map_natCast_mul (l : List Nat) (r : ℚ) :
    (l.map (fun (x : Nat) => (x : ℚ) * r)).sum = (l.sum : ℚ) * r := by
  induction l with
  | nil => simp
  | cons x xs ih =>
    simp only [List.map_cons, List.sum_cons, ih, Nat.cast_add, add_mul]

/-- C9.  A train call on a corpus with at least one token succeeds, and the
relative frequencies it stores add up to exactly one. -/
theorem claim_C9 (self : Tokeniser) (text : List Char)
    (h : pySplit (pySub text) ≠ []) :
    (self.train text).2 = none
    ∧ ((self.train text).1.vocab_freq).sum = 1 := by
  have hne : ((counterOf (pySplit (pySub text))).map Prod.snd).sum ≠ 0 := by
    rw [sum_counterOf_counts]
    simpa [List.length_eq_zero] using h
  simp only [Tokeniser.train]
  rw [if_neg hne]
  refine ⟨rfl, ?_⟩
  rw [sum_map_natCast_mul]
  exact mul_one_div_cancel (Nat.cast_ne_zero.mpr hne)

/-- Witness for C9 on a two-token corpus. -/
theorem claim_C9_witness :
    pySplit (pySub "a b".toList) ≠ []
    ∧ ((Tokeniser.init.train "a b".toList).2 = none
       ∧ ((Tokeniser.init.train "a b".toList).1.vocab_freq).sum = 1) :=
  ⟨by decide, claim_C9 Tokeniser.init "a b".toList (by decide)⟩

/-- The output loop only looks at membership in the key list. -/
lemma emitTokens_congr (k1 k2 : List (List Char))
    (hm : ∀ t, t ∈ k1 ↔ t ∈ k2) (u : Bool) (ws : List (List Char)) :
    emitTokens k1 u ws = emitTokens k2 u ws := by
  induction ws with
  | nil => rfl
  | cons t rest ih =>
    rw [emitTokens, emitTokens, ih]
    by_cases h : t ∈ k1
    · rw [if_pos h, if_pos ((hm t).mp h)]
    · rw [if_neg h, if_neg (fun hc => h ((hm t).mpr hc))]
      by_cases hu : u = true
      · rw [if_pos ⟨h, hu⟩, if_pos ⟨fun hc => h ((hm t).mpr hc), hu⟩]
      · rw [if_neg (fun hc => hu hc.2), if_neg (fun hc => hu hc.2)]

/-- With threshold one, the filtered counting dict keeps every entry, so its
keys are exactly the distinct elements of the counted list. -/
lemma mem_countThreshold_one {α : Type} [DecidableEq α] (l : List α)
    (t : α) :
    t ∈ ((counterOf l).filter (fun p => (1:ℤ) ≤ (p.2 : ℤ))).map Prod.fst
      ↔ t ∈ l := by
  have hfe : (counterOf l).filter (fun p => (1:ℤ) ≤ (p.2 : ℤ))
      = counterOf l := by
    apply List.filter_eq_self.mpr
    intro p hp
    rw [counterOf, List.mem_map] at hp
    obtain ⟨a, ha, rfl⟩ := hp
    have hmem : a ∈ l := (mem_firstOccs a l).mp ha
    have hpos : 0 < l.count a := List.count_pos_iff.mpr hmem
    simp only [decide_eq_true_eq]
    omega
  rw [hfe, counterOf, List.map_map]
  have hcomp : (Prod.fst ∘ fun a : α => (a, l.count a)) = id := rfl
  rw [hcomp, List.map_id]
  exact mem_firstOccs t l

/-- C10.  On an instance produced by training, tokenise and
tokenise_with_count_threshold with threshold one agree on every input: every
distinct training token has count at least one, so the two active
vocabularies have the same members. -/
theorem claim_C10 (s0 : Tokeniser) (corpus text : List Char)
    (use_unk : Bool) (h : pySplit (pySub corpus) ≠ []) :
    ((s0.train corpus).1).tokenise text use_unk
      = ((s0.train corpus).1).tokenise_with_count_threshold text 1 use_unk := by
  obtain ⟨hc, hv, hcounts⟩ := train_fields s0 corpus
  simp only [Tokeniser.tokenise, Tokeniser.tokenise_with_count_threshold, hc,
    if_true]
  congr 1
  apply emitTokens_congr
  intro t
  rw [hv, Tokeniser.countThresholdVocab, hcounts]
  exact (mem_countThreshold_one (pySplit (pySub corpus)) t).symm

/-- Witness for C10 on a three-token corpus, a text holding one member and
one non-member token. -/
theorem claim_C10_witness :
    pySplit (pySub "a a b".toList) ≠ []
    ∧ ((Tokeniser.init.train "a a b".toList).1).tokenise "a c".toList false
      = ((Tokeniser.init.train "a a b".toList).1).tokenise_with_count_threshold
          "a c".toList 1 false :=
  ⟨by decide, claim_C10 Tokeniser.init "a a b".toList "a c".toList false
    (by decide)⟩

lemma isPySpace_spaceChar : isPySpace spaceChar = true := by decide

/-- Scanning a run of non-whitespace characters extends the accumulator. -/
lemma pySplitAux_append (t : List Char) (rest : List Char) (acc : List Char)
    (h : ∀ c ∈ t, isPySpace c = false) :
    pySplitAux (t ++ rest) acc = pySplitAux rest (t.reverse ++ acc) := by
  induction t generalizing acc with
  | nil => simp
  | cons c cs ih =>
    have hc : isPySpace c = false := h c (List.mem_cons_self c cs)
    rw [List.cons_append, pySplitAux, hc]
    simp only [Bool.false_eq_true, if_false]
    rw [ih (c :: acc) (fun d hd => h d (List.mem_cons_of_mem c hd))]
    congr 1
    simp

/-- Every token the split emits consists of non-whitespace characters, as
long as the accumulator does. -/
lemma pySplitAux_no_space (l : List Char) (acc : List Char)
    (hacc : ∀ c ∈ acc, isPySpace c = false) :
    ∀ t ∈ pySplitAux l acc, ∀ c ∈ t, isPySpace c = false := by
  induction l generalizing acc with
  | nil =>
    intro t ht
    rw [pySplitAux] at ht
    split at ht
    · cases ht
    · rcases List.mem_singleton.mp ht with rfl
      intro c hc
      exact hacc c (List.mem_reverse.mp hc)
  | cons d ds ih =>
    intro t ht
    rw [pySplitAux] at ht
    by_cases hd : isPySpace d = true
    · rw [if_pos hd] at ht
      by_cases ha : acc = []
      · rw [if_pos ha] at ht
        exact ih [] (by simp) t ht
      · rw [if_neg ha] at ht
        rcases List.mem_cons.mp ht with rfl | ht2
        · intro c hc
          exact hacc c (List.mem_reverse.mp hc)
        · exact ih [] (by simp) t ht2
    · rw [if_neg hd] at ht
      refine ih (d :: acc) ?_ t ht
      intro c hc
      rcases List.mem_cons.mp hc with rfl | hc2
      · simpa using hd
      · exact hacc c hc2

/-- Every token the split emits is nonempty. -/
lemma pySplitAux_ne_nil (l : List Char) (acc : List Char) :
    ∀ t ∈ pySplitAux l acc, t ≠ [] := by
  induction l generalizing acc with
  | nil =>
    intro t ht
    rw [pySplitAux] at ht
    by_cases ha : acc = []
    · rw [if_pos ha] at ht
      cases ht
    · rw [if_neg ha] at ht
      rcases List.mem_singleton.mp ht with rfl
      simpa using ha
  | cons d ds ih =>
    intro t ht
    rw [pySplitAux] at ht
    by_cases hd : isPySpace d = true
    · rw [if_pos hd] at ht
      by_cases ha : acc = []
      · rw [if_pos ha] at ht
        exact ih [] t ht
      · rw [if_neg ha] at ht
        rcases List.mem_cons.mp ht with rfl | ht2
        · simpa using ha
        · exact ih [] t ht2
    · rw [if_neg hd] at ht
      exact ih (d :: acc) t ht

/-- Every character of every token the split emits comes from the scanned
text or from the accumulator. -/
lemma pySplitAux_chars (l : List Char) (acc : List Char) :
    ∀ t ∈ pySplitAux l acc, ∀ c ∈ t, c ∈ l ∨ c ∈ acc := by
  induction l generalizing acc with
  | nil =>
    intro t ht c hc
    rw [pySplitAux] at ht
    by_cases ha : acc = []
    · rw [if_pos ha] at ht
      cases ht
    · rw [if_neg ha] at ht
      rcases List.mem_singleton.mp ht with rfl
      exact Or.inr (List.mem_reverse.mp hc)
  | cons d ds ih =>
    intro t ht c hc
    rw [pySplitAux] at ht
    by_cases hd : isPySpace d = true
    · rw [if_pos hd] at ht
      by_cases ha : acc = []
      · rw [if_pos ha] at ht
        rcases ih [] t ht c hc with h | h
        · exact Or.inl (List.mem_cons_of_mem d h)
        · cases h
      · rw [if_neg ha] at ht
        rcases List.mem_cons.mp ht with rfl | ht2
        · exact Or.inr (List.mem_reverse.mp hc)
        · rcases ih [] t ht2 c hc with h | h
          · exact Or.inl (List.mem_cons_of_mem d h)
          · cases h
    · rw [if_neg hd] at ht
      rcases ih (d :: acc) t ht c hc with h | h
      · exact Or.inl (List.mem_cons_of_mem d h)
      · rcases List.mem_cons.mp h with rfl | h2
        · exact Or.inl (List.mem_cons_self c ds)
        · exact Or.inr h2

/-- Every token of the punctuation split consists of characters outside the
separator set. -/
lemma split_sub_no_sep (text : List Char) :
    ∀ t ∈ pySplit (pySub text), ∀ c ∈ t, isSep c = false := by
  intro t ht c hc
  have hs : isPySpace c = false :=
    pySplitAux_no_space (pySub text) [] (by simp) t ht c hc
  rcases pySplitAux_chars (pySub text) [] t ht c hc with hin | hin
  · rw [pySub, List.mem_map] at hin
    obtain ⟨c0, hc0, heq⟩ := hin
    by_cases h0 : isSep c0 = true
    · rw [if_pos h0] at heq
      rw [← heq, isPySpace_spaceChar] at hs
      cases hs
    · rw [if_neg h0] at heq
      rw [← heq]
      simpa using h0
  · cases hin

/-- The substitution fixes a string whose characters are outside the
separator set or the space itself. -/
lemma pySub_fix (l : List Char)
    (h : ∀ c ∈ l, isSep c = false ∨ c = spaceChar) : pySub l = l := by
  have hmap : ∀ c ∈ l, (if isSep c then spaceChar else c) = id c := by
    intro c hc
    rcases h c hc with h1 | rfl
    · rw [if_neg (by simp [h1])]
      rfl
    · split <;> rfl
  rw [pySub, List.map_congr_left hmap, List.map_id]

lemma joinSpace_cons_cons (t t2 : List Char) (ts2 : List (List Char)) :
    joinSpace (t :: t2 :: ts2) = t ++ spaceChar :: joinSpace (t2 :: ts2) :=
  rfl

/-- A character of the space-joined rendering lies in one of the tokens or
is the joining space. -/
lemma mem_joinSpace (ts : List (List Char)) (c : Char)
    (hc : c ∈ joinSpace ts) : (∃ t ∈ ts, c ∈ t) ∨ c = spaceChar := by
  induction ts with
  | nil => cases hc
  | cons t ts ih =>
    cases ts with
    | nil => exact Or.inl ⟨t, by simp, by simpa [joinSpace] using hc⟩
    | cons t2 ts2 =>
      rw [joinSpace_cons_cons] at hc
      rcases List.mem_append.mp hc with h | h
      · exact Or.inl ⟨t, by simp, h⟩
      · rcases List.mem_cons.mp h with rfl | h2
        · exact Or.inr rfl
        · rcases ih h2 with ⟨u, hu, hcu⟩ | h3
          · exact Or.inl ⟨u, List.mem_cons_of_mem _ hu, hcu⟩
          · exact Or.inr h3

/-- Splitting the space-joined rendering of nonempty whitespace-free tokens
recovers the tokens. -/
lemma pySplit_joinSpace (ts : List (List Char))
    (hne : ∀ t ∈ ts, t ≠ [])
    (hns : ∀ t ∈ ts, ∀ c ∈ t, isPySpace c = false) :
    pySplit (joinSpace ts) = ts := by
  induction ts with
  | nil => rfl
  | cons t ts ih =>
    cases ts with
    | nil =>
      show pySplitAux (joinSpace [t]) [] = [t]
      rw [joinSpace, ← List.append_nil t,
        pySplitAux_append t [] [] (by simpa using hns t (by simp))]
      rw [pySplitAux]
      have hrev : t.reverse ++ [] ≠ [] := by
        simpa using hne t (by simp)
      rw [if_neg hrev]
      simp
    | cons t2 ts2 =>
      show pySplitAux (joinSpace (t :: t2 :: ts2)) [] = t :: t2 :: ts2
      rw [joinSpace_cons_cons,
        pySplitAux_append t (spaceChar :: joinSpace (t2 :: ts2)) []
          (hns t (by simp))]
      rw [pySplitAux, isPySpace_spaceChar]
      simp only [if_true]
      have hrev : ¬ (t.reverse ++ [] = []) := by
        simpa using hne t (by simp)
      rw [if_neg hrev]
      have htail := ih (fun u hu => hne u (List.mem_cons_of_mem t hu))
        (fun u hu => hns u (List.mem_cons_of_mem t hu))
      rw [pySplit] at htail
      rw [htail]
      simp

/-- C7.  Splitting is idempotent: re-splitting the space-joined split output
returns the same token sequence, and no emitted token contains a separator
character. -/
theorem claim_C7 (text : List Char) :
    tokenise_on_punctuation (joinSpace (tokenise_on_punctuation text))
      = tokenise_on_punctuation text
    ∧ (tokenise_on_punctuation text).all
        (fun t => t.all (fun c => !(isSep c))) = true := by
  have hns : ∀ t ∈ pySplit (pySub text), ∀ c ∈ t, isPySpace c = false :=
    pySplitAux_no_space (pySub text) [] (by simp)
  have hsep : ∀ t ∈ pySplit (pySub text), ∀ c ∈ t, isSep c = false :=
    split_sub_no_sep text
  have hne : ∀ t ∈ pySplit (pySub text), t ≠ [] :=
    pySplitAux_ne_nil (pySub text) []
  constructor
  · show pySplit (pySub (joinSpace (pySplit (pySub text)))) = _
    rw [pySub_fix _ (fun c hc => ?_)]
    · exact pySplit_joinSpace _ hne hns
    · rcases mem_joinSpace _ c hc with ⟨t, ht, hct⟩ | h
      · exact Or.inl (hsep t ht c hct)
      · exact Or.inr h
  · rw [List.all_eq_true]
    intro t ht
    rw [List.all_eq_true]
    intro c hc
    simp [hsep t ht c hc]

/-! ## Facts about the statistics function -/

lemma perm_insertByKey (p : Nat × Nat) (xs : List (Nat × Nat)) :
    (insertByKey p xs).Perm (p :: xs) := by
  induction xs with
  | nil => exact List.Perm.refl _
  | cons q qs ih =>
    rw [insertByKey]
    by_cases h : p.1 ≤ q.1
    · rw [if_pos h]
    · rw [if_neg h]
      exact (ih.cons q).trans (List.Perm.swap p q qs)

lemma perm_sortByKey (xs : List (Nat × Nat)) : (sortByKey xs).Perm xs := by
  induction xs with
  | nil => exact List.Perm.refl _
  | cons p ps ih =>
    rw [sortByKey]
    exact (perm_insertByKey p (sortByKey ps)).trans (ih.cons p)

lemma sorted_insertByKey (p : Nat × Nat) (xs : List (Nat × Nat))
    (hs : xs.Pairwise (fun a b => a.1 ≤ b.1)) :
    (insertByKey p xs).Pairwise (fun a b => a.1 ≤ b.1) := by
  induction xs with
  | nil => simp [insertByKey]
  | cons q qs ih =>
    rw [insertByKey]
    rcases List.pairwise_cons.mp hs with ⟨hq, hqs⟩
    by_cases h : p.1 ≤ q.1
    · rw [if_pos h]
      refine List.pairwise_cons.mpr ⟨?_, hs⟩
      intro r hr
      rcases List.mem_cons.mp hr with rfl | hr2
      · exact h
      · exact le_trans h (hq r hr2)
    · rw [if_neg h]
      refine List.pairwise_cons.mpr ⟨?_, ih hqs⟩
      intro r hr
      rcases List.mem_cons.mp ((perm_insertByKey p qs).mem_iff.mp hr) with
        rfl | hr2
      · exact Nat.le_of_not_le h
      · exact hq r hr2

lemma sorted_sortByKey (xs : List (Nat × Nat)) :
    (sortByKey xs).Pairwise (fun a b => a.1 ≤ b.1) := by
  induction xs with
  | nil => simp [sortByKey]
  | cons p ps ih => exact sorted_insertByKey p (sortByKey ps) ih

/-- The keys of the counting dict are the distinct elements. -/
lemma counterOf_keys {α : Type} [DecidableEq α] (l : List α) :
    (counterOf l).map Prod.fst = firstOccs l := by
  rw [counterOf, List.map_map]
  have hcomp : (Prod.fst ∘ fun a : α => (a, l.count a)) = id := rfl
  rw [hcomp, List.map_id]

/-- Membership in the counting dict pairs a distinct element with its
occurrence count. -/
lemma mem_counterOf {α : Type} [DecidableEq α] (l : List α) (k : α)
    (c : Nat) : (k, c) ∈ counterOf l ↔ k ∈ l ∧ c = l.count k := by
  rw [counterOf, List.mem_map]
  constructor
  · rintro ⟨a, ha, heq⟩
    injection heq with h1 h2
    subst h1
    exact ⟨(mem_firstOccs a l).mp ha, h2.symm⟩
  · rintro ⟨hk, rfl⟩
    exact ⟨k, (mem_firstOccs k l).mpr hk, rfl⟩

lemma pairwise_ne_counterOf {α : Type} [DecidableEq α] (l : List α) :
    (counterOf l).Pairwise (fun a b => a.1 ≠ b.1) := by
  rw [counterOf, List.pairwise_map]
  exact (nodup_firstOccs l).imp (fun h => h)

/-- The by-length dict of get_stats is strictly sorted on its keys. -/
lemma pairwise_lt_sortByKey_counterOf (l : List Nat) :
    (sortByKey (counterOf l)).Pairwise (fun a b => a.1 < b.1) := by
  have h1 := sorted_sortByKey (counterOf l)
  have h2 : (sortByKey (counterOf l)).Pairwise (fun a b => a.1 ≠ b.1) :=
    ((perm_sortByKey (counterOf l)).pairwise_iff
      (fun hx => hx.symm)).mpr (pairwise_ne_counterOf l)
  exact (h1.and h2).imp (fun h => lt_of_le_of_ne h.1 h.2)

/-- The number of distinct elements is the cardinality of the element
set. -/
lemma length_firstOccs {α : Type} [DecidableEq α] (l : List α) :
    (firstOccs l).length = l.toFinset.card := by
  have h1 : (firstOccs l).toFinset = l.toFinset := by
    ext a
    simp [List.mem_toFinset, mem_firstOccs]
  rw [← h1, List.toFinset_card_of_nodup (nodup_firstOccs l)]

lemma exStats_chars : exStatsToks.map List.length = [1, 2, 2, 3] := by decide

lemma exStats_counter_len : (counterOf exStatsToks).length = 3 := by decide

lemma exStats_counter_sum :
    ((counterOf exStatsToks).map Prod.snd).sum = 4 := by decide

lemma exStats_charCounter : counterOf ([1, 2, 2, 3] : List Nat)
    = [(1, 1), (2, 2), (3, 1)] := by decide

lemma exStats_sorted : sortByKey [(1, 1), (2, 2), (3, 1)]
    = [(1, 1), (2, 2), (3, 1)] := by decide

/-- The worked statistics example evaluated. -/
lemma get_stats_example :
    get_stats exStatsToks =
      { type_count := 3
        token_count := 4
        type_token_ratio := 3 / 4
        token_count_by_length := [(1, 1), (2, 2), (3, 1)]
        average_token_length := 2
        token_length_std_sq := 2 / 3 } := by
  simp only [get_stats, exStats_chars, exStats_counter_len,
    exStats_counter_sum, exStats_charCounter, exStats_sorted]
  simp only [Stats.mk.injEq]
  norm_num [listMeanQ, sampleVarQ]

/-- C8.  For a token sequence of at least two tokens, get_stats returns the
distinct-token count, the total token count, their quotient, the by-length
distribution sorted by ascending length, the mean token length, and the
sample variance of the token lengths (the square of the standard deviation);
in particular the worked four-token example of the spec evaluates as
stated. -/
theorem claim_C8 (l : List (List Char)) (h : 2 ≤ l.length) :
    (get_stats l).type_count = l.toFinset.card
    ∧ (get_stats l).token_count = l.length
    ∧ Stats.type_token_ratio (get_stats l)
        = (l.toFinset.card : ℚ) / (l.length : ℚ)
    ∧ List.Pairwise (fun p q => p.1 < q.1)
        ((get_stats l).token_count_by_length)
    ∧ (∀ k c, (k, c) ∈ (get_stats l).token_count_by_length
        ↔ (0 < c ∧ c = (l.map List.length).count k))
    ∧ (get_stats l).average_token_length
        = ((l.map List.length).map (fun (n : Nat) => (n : ℚ))).sum
            / (l.length : ℚ)
    ∧ (get_stats l).token_length_std_sq
        = sampleVarQ ((l.map List.length).map (fun (n : Nat) => (n : ℚ)))
    ∧ get_stats exStatsToks =
        { type_count := 3
          token_count := 4
          type_token_ratio := 3 / 4
          token_count_by_length := [(1, 1), (2, 2), (3, 1)]
          average_token_length := 2
          token_length_std_sq := 2 / 3 } := by
  have hlen : (counterOf l).length = l.toFinset.card := by
    rw [counterOf, List.length_map]
    exact length_firstOccs l
  refine ⟨?_, ?_, ?_, ?_, ?_, ?_, ?_, get_stats_example⟩
  · simpa only [get_stats] using hlen
  · simpa only [get_stats] using sum_counterOf_counts l
  · simp only [get_stats]
    rw [hlen, sum_counterOf_counts l]
  · simp only [get_stats]
    exact pairwise_lt_sortByKey_counterOf (l.map List.length)
  · intro k c
    simp only [get_stats]
    rw [(perm_sortByKey _).mem_iff, mem_counterOf]
    constructor
    · rintro ⟨hk, rfl⟩
      exact ⟨List.count_pos_iff.mpr hk, rfl⟩
    · rintro ⟨hc, rfl⟩
      exact ⟨List.count_pos_iff.mp hc, rfl⟩
  · simp only [get_stats, listMeanQ]
    rw [List.length_map, List.length_map]
  · simp only [get_stats]

/-- Witness for C8 at the worked four-token example. -/
theorem claim_C8_witness :
    2 ≤ exStatsToks.length
    ∧ ((get_stats exStatsToks).type_count = exStatsToks.toFinset.card
      ∧ (get_stats exStatsToks).token_count = exStatsToks.length
      ∧ Stats.type_token_ratio (get_stats exStatsToks)
          = (exStatsToks.toFinset.card : ℚ) / (exStatsToks.length : ℚ)
      ∧ List.Pairwise (fun p q => p.1 < q.1)
          ((get_stats exStatsToks).token_count_by_length)
      ∧ (∀ k c, (k, c) ∈ (get_stats exStatsToks).token_count_by_length
          ↔ (0 < c ∧ c = (exStatsToks.map List.length).count k))
      ∧ (get_stats exStatsToks).average_token_length
          = ((exStatsToks.map List.length).map
              (fun (n : Nat) => (n : ℚ))).sum / (exStatsToks.length : ℚ)
      ∧ (get_stats exStatsToks).token_length_std_sq
          = sampleVarQ ((exStatsToks.map List.length).map
              (fun (n : Nat) => (n : ℚ)))
      ∧ get_stats exStatsToks =
          { type_count := 3
            token_count := 4
            type_token_ratio := 3 / 4
            token_count_by_length := [(1, 1), (2, 2), (3, 1)]
            average_token_length := 2
            token_length_std_sq := 2 / 3 }) :=
  ⟨by decide, claim_C8 exStatsToks (by decide)⟩
